import Mathlib

/-
Verification of the caching / reconciliation and futures-roll logic of
`xbbg/blp.py` via a shallow embedding.

Modelling conventions:
* A tabular row returned by the terminal (or read back from a cache file)
  is a `Row` with a `ticker`, a `field` and a numeric `value`; dates are
  encoded as natural numbers in `YYYYMMDD` form, so that the numeric order
  coincides with the calendar order and the calendar month of a date `v`
  is `v / 100 % 100`.
* External collaborators (the terminal connection, the cache-path
  resolution of `assist._ref_file_`, the on-disk cache) are parameters:
  `ex : String → String → Option Row` gives the cached row of a
  (ticker, field) cell (`none` = no cache file), `refo` is `con.ref`,
  `hasPath` is truthiness of the resolved cache path, `exB` is cache-file
  existence for the block (`bds`) cache.
* A Python function that can raise an uncaught exception is modelled with
  an `Option`/sum result where `none` (resp. `FutResult.exn`) marks the
  exceptional exit.
-/

structure Row where
  ticker : String
  field : String
  value : Nat
  deriving Repr, DecidableEq

/-- Key equality of two rows: same (ticker, field) cell, the identity used by
`drop_duplicates(subset=['ticker', 'field'])` in `bdp`. -/
def keyEq (a b : Row) : Bool := a.ticker == b.ticker && a.field == b.field

/-- Predicate selecting the rows of one (ticker, field) cell. -/
def pKey (t f : String) (r : Row) : Bool := r.ticker == t && r.field == f

/-- Embedding of `pandas.DataFrame.drop_duplicates(subset=['ticker', 'field'],
keep='last')`: a row is kept exactly when no later row has the same
(ticker, field) key, and the kept rows stay in their original order. -/
def keepLast : List Row → List Row
  | [] => []
  | r :: rs => if rs.any (keyEq r) then keepLast rs else r :: keepLast rs

/-
The LoadedMatrix partition of `bdp` (blp.py lines 50-62) and `bds`
(lines 180-195).  `loaded` holds 1 for cached cells and 0 for outstanding
ones; `to_qry = loaded.where(loaded == 0).dropna(how='all', axis=1)
.dropna(how='all', axis=0)` keeps exactly the tickers (rows) with at least
one outstanding cell and the fields (columns) with at least one outstanding
cell.  `outst t f = true` means the cell (t, f) is outstanding (no cache
file).
-/

/-- Tickers kept by `to_qry` (`ref_tcks`): those with an outstanding cell. -/
def outTicks (outst : String → String → Bool) (tickers flds : List String) : List String :=
  tickers.filter fun t => flds.any fun f => outst t f

/-- Fields kept by `to_qry` (`ref_flds`): those with an outstanding cell. -/
def outFlds (outst : String → String → Bool) (tickers flds : List String) : List String :=
  flds.filter fun f => tickers.any fun t => outst t f

/-- The (ticker, field) cells covered by the terminal fetch
`con.ref(tickers=ref_tcks, flds=ref_flds)`: the full Cartesian product of
the kept tickers and kept fields. -/
def fetchCells (outst : String → String → Bool) (tickers flds : List String) :
    List (String × String) :=
  (outTicks outst tickers flds).flatMap fun t =>
    (outFlds outst tickers flds).map fun f => (t, f)

/-- Outstanding predicate of `bdp`: the cell's reference-cache file is absent. -/
def bdpOut (ex : String → String → Option Row) (t f : String) : Bool := (ex t f).isNone

/-- Cached fragments gathered by the `product(tickers, flds)` loop of `bdp`
(lines 51-57), in loop order: tickers outermost, fields innermost. -/
def cachedOf (ex : String → String → Option Row) (tickers flds : List String) : List Row :=
  tickers.flatMap fun t => flds.filterMap fun f => ex t f

/-- Result rows of `bdp(tickers, flds, cache=True)` (lines 44-80): cached
fragments in product order, then the freshly fetched rows appended in fetch
order, concatenated and deduplicated by (ticker, field) keeping the last
occurrence.  The fetch happens only when `to_qry` is non-empty. -/
def bdpCachedRows (ex : String → String → Option Row)
    (refo : List String → List String → List Row) (tickers flds : List String) : List Row :=
  let fresh :=
    if (outTicks (bdpOut ex) tickers flds).isEmpty then []
    else refo (outTicks (bdpOut ex) tickers flds) (outFlds (bdpOut ex) tickers flds)
  keepLast (cachedOf ex tickers flds ++ fresh)

/-
Futures roll resolution, `fut_ticker` (blp.py lines 371-428).
-/

/-- The filtered chain `sub_fut = fut_matu[pd.DatetimeIndex(fut_matu.value) > dt]`
(line 425): candidates whose maturity date is strictly after the as-of date. -/
def subFut (matu : List Row) (dtv : Nat) : List Row :=
  matu.filter fun r => decide (dtv < r.value)

/-- Outcome of `fut_ticker`: a returned string, or an uncaught exception
(the `IndexError` of `sub_fut.ticker.values[idx]` on a too-short chain). -/
inductive FutResult where
  | ok (s : String)
  | exn
  deriving Repr, DecidableEq

/-- The selection step `return sub_fut.ticker.values[idx]` (line 428). -/
def selectFut (matu : List Row) (dtv idx : Nat) : FutResult :=
  match (subFut matu dtv)[idx]? with
  | some r => .ok r.ticker
  | none => .exn

/-- The query-with-retry skeleton of `fut_ticker` (lines 411-428): one batch
maturity query on the full candidate list `fut`; on failure exactly one
retry on `fut` with its last element dropped; on a second failure the
function returns the empty string.  `q` abstracts an attempt of
`bdp(tickers=fut, flds='last_tradeable_dt', cache=True)`, with `none`
standing for a raised exception.  The second component counts the upstream
maturity-query calls made. -/
def fut_ticker_core (q : List String → Option (List Row)) (fut : List String)
    (dtv idx : Nat) : FutResult × Nat :=
  match q fut with
  | some m => (selectFut m dtv idx, 1)
  | none =>
    match q fut.dropLast with
    | some m => (selectFut m dtv idx, 2)
    | none => (.ok "", 2)

/-- Composition of the maturity lookup through the cached `bdp` with the
selection step of `fut_ticker`, for executions where the first query
attempt succeeds: the maturity table is exactly what
`bdp(tickers=fut, flds='last_tradeable_dt', cache=True)` returns. -/
def fut_select (ex : String → String → Option Row)
    (refo : List String → List String → List Row) (fut : List String)
    (dtv idx : Nat) : FutResult :=
  selectFut (bdpCachedRows ex refo fut ["last_tradeable_dt"]) dtv idx

/-- Insertion of a row into a list sorted by maturity value. -/
def insertByValue (r : Row) : List Row → List Row
  | [] => [r]
  | x :: xs => if r.value ≤ x.value then r :: x :: xs else x :: insertByValue r xs

/-- Insertion sort by maturity value. -/
def sortByValue : List Row → List Row
  | [] => []
  | x :: xs => insertByValue x (sortByValue xs)

/-- Modelled from the spec's words (Roll Resolver step 6): keep the
candidates whose maturity date is strictly after the as-of date and return
the element at position `idx` of that filtered list taken in chronological
(maturity-date) order.  Used as the specification side of the refinement
comparison with `selectFut`/`fut_select`. -/
def chronSelect (matu : List Row) (dtv idx : Nat) : Option String :=
  ((sortByValue (subFut matu dtv))[idx]?).map Row.ticker

/-
Active futures selection, `active_futures` (blp.py lines 341-368), after the
two generic tickers have been resolved to the dated symbols `fut1`/`fut2`.
-/

/-- Calendar month of a `YYYYMMDD`-encoded date. -/
def monthOf (v : Nat) : Nat := v / 100 % 100

/-- The decision phase of `active_futures` (lines 361-368): maturity rows
come from `bdp(tickers=[fut_1, fut_2], flds='Last_Tradeable_Dt', cache=True)`;
`fut_tk.value[0]` is the first returned row (a `KeyError`-style exception,
modelled as `none`, if there is none); when the as-of month is not smaller
than that row's maturity month the summed volumes `vol1`/`vol2` of the two
candidates are fetched and compared with a strict `>`.  The boolean in the
result records whether the intraday volume queries were issued. -/
def active_futures_core (ex : String → String → Option Row)
    (refo : List String → List String → List Row) (fut1 fut2 : String)
    (dtv vol1 vol2 : Nat) : Option (String × Bool) :=
  let matu := bdpCachedRows ex refo [fut1, fut2] ["Last_Tradeable_Dt"]
  match matu[0]? with
  | none => none
  | some r =>
    if monthOf dtv < monthOf r.value then some (fut1, false)
    else some ((if vol2 < vol1 then fut1 else fut2), true)

/-
Intraday bars, `bdib` (blp.py lines 214-302).  The per-call inputs that the
surrounding code computes (cache-file existence, asset-class recognition,
exchange metadata, futures resolution success, the terminal's bar rows) are
passed as parameters; `miss` is the consecutive-empty-result counter map
keyed per (ticker, date, type).
-/

structure BdibEff where
  /-- `none` models the Python `None` return; `some rows` models a returned
  `DataFrame` with the given bar rows (so `some []` is an empty frame). -/
  result : Option (List Nat)
  /-- Whether the intraday-bar terminal fetch `con.bdib(...)` was invoked. -/
  termCalled : Bool
  /-- The consecutive-empty-result counter map after the call. -/
  missAfter : String → Nat
  /-- Whether `_save_intraday_` persisted fetched data to the cache. -/
  saved : Bool

/-- Modelled from the spec: `assist.update_missing` (xbbg.assist, not under
src/), which the spec describes as incrementing a "consecutive empty
result" counter per (ticker, date, type); the key is the combined
(ticker, date, type) tuple. -/
def update_missing (miss : String → Nat) (key : String) : String → Nat :=
  fun k => if k = key then miss k + 1 else miss k

/-- Body of `bdib` after the batch-freshness guard (lines 236-302): cache-file
short-circuit, unknown-asset and missing-exchange-metadata empty results,
futures-resolution failure empty result, miss-counter suppression at two or
more consecutive misses, then the terminal fetch, incrementing the miss
counter on an empty result and persisting plus returning (`None` in batch
mode) otherwise. -/
def bdib_rest (batch cacheHit : Bool) (cacheRows : List Nat)
    (assetKnown exchOk futOk : Bool) (miss : String → Nat) (key : String)
    (fetch : List Nat) : BdibEff :=
  if cacheHit then
    if batch then ⟨none, false, miss, false⟩ else ⟨some cacheRows, false, miss, false⟩
  else if !assetKnown then ⟨some [], false, miss, false⟩
  else if !exchOk then ⟨some [], false, miss, false⟩
  else if !futOk then ⟨some [], false, miss, false⟩
  else if 2 ≤ miss key then
    if batch then ⟨none, false, miss, false⟩ else ⟨some [], false, miss, false⟩
  else if fetch.isEmpty then ⟨some [], true, update_missing miss key, false⟩
  else if batch then ⟨none, true, miss, true⟩
  else ⟨some fetch, true, miss, true⟩

/-- The batch-freshness guard of `bdib` (lines 230-234):
`whole_day = date(dt) < today - 1 day` and the fetch is skipped when
`(not whole_day) and batch`.  Dates are day ordinals here, so `today - 1`
is yesterday. -/
def freshGuard (today dtv : Nat) (batch : Bool) : Bool :=
  batch && !(decide (dtv < today - 1))

/-- Full `bdib` call: the freshness guard returns `None` without touching
the terminal or the counter; otherwise the body `bdib_rest` runs. -/
def bdib_core (today dtv : Nat) (batch cacheHit : Bool) (cacheRows : List Nat)
    (assetKnown exchOk futOk : Bool) (miss : String → Nat) (key : String)
    (fetch : List Nat) : BdibEff :=
  if freshGuard today dtv batch then ⟨none, false, miss, false⟩
  else bdib_rest batch cacheHit cacheRows assetKnown exchOk futOk miss key fetch

/-
Block data, `bds(tickers, flds, cached=True)` (blp.py lines 179-211): the
fresh-fetch loop `for (ticker, fld), grp in data.groupby(['ticker','field'])`
(lines 201-208).
-/

/-- Distinct (ticker, field) keys of a row list.  `pandas.groupby` iterates
each distinct key once; membership is what matters below, not the
enumeration order. -/
def keysOf : List Row → List (String × String)
  | [] => []
  | r :: rs =>
    (r.ticker, r.field) :: (keysOf rs).filter fun k => !(k == (r.ticker, r.field))

/-- The group of rows of one (ticker, field) key, in their original order,
as `groupby` yields it. -/
def groupOf (l : List Row) (k : String × String) : List Row :=
  l.filter fun r => (r.ticker, r.field) == k

/-- The fetched data grouped by (ticker, field). -/
def groupsOf (l : List Row) : List ((String × String) × List Row) :=
  (keysOf l).map fun k => (k, groupOf l k)

/-- The `bds` fresh-group loop (lines 201-208), one group at a time: the
group is persisted when its cache path resolves (`if data_file:`), and it is
appended to the result buffer exactly when `to_qry.loc[ticker, fld] == 0`,
i.e. when the cell is inside the `to_qry` rectangle with value 0
(outstanding); a cached cell inside the rectangle holds NaN there, and
`NaN == 0` is false.  A group key outside the rectangle makes `.loc` raise
a `KeyError`, modelled as `none`.  Returns (result buffer, persisted
fragments). -/
def bdsFreshLoop (exB hasPath : String → String → Bool) (tickers flds : List String) :
    List ((String × String) × List Row) →
      Option (List Row × List ((String × String) × List Row))
  | [] => some ([], [])
  | (k, g) :: rest =>
    if k.1 ∈ outTicks (fun t f => !exB t f) tickers flds ∧
        k.2 ∈ outFlds (fun t f => !exB t f) tickers flds then
      match bdsFreshLoop exB hasPath tickers flds rest with
      | none => none
      | some (buf, wr) =>
        some ((if exB k.1 k.2 then buf else g ++ buf),
          (if hasPath k.1 k.2 then (k, g) :: wr else wr))
    else none

/-- The `bds` fresh-fetch phase on the grouped terminal data. -/
def bdsFresh (exB hasPath : String → String → Bool) (tickers flds : List String)
    (data : List Row) : Option (List Row × List ((String × String) × List Row)) :=
  bdsFreshLoop exB hasPath tickers flds (groupsOf data)

/-
Helper lemmas about the row-key machinery.
-/

lemma pKey_iff {t f : String} {r : Row} : pKey t f r = true ↔ r.ticker = t ∧ r.field = f := by
  simp [pKey]

lemma keyEq_iff {a b : Row} : keyEq a b = true ↔ a.ticker = b.ticker ∧ a.field = b.field := by
  simp [keyEq]

/-- The last row of a list satisfying a predicate, or `none`. -/
def lastWith (p : Row → Bool) : List Row → Option Row
  | [] => none
  | r :: rs => (lastWith p rs).or (if p r then some r else none)

lemma lastWith_eq_none {p : Row → Bool} {l : List Row} :
    lastWith p l = none ↔ ∀ b ∈ l, p b = false := by
  induction l with
  | nil => simp [lastWith]
  | cons r rs ih =>
    simp only [lastWith, Option.or_eq_none, ih]
    constructor
    · rintro ⟨hall, hr⟩ b hb
      rcases List.mem_cons.mp hb with rfl | hb2
      · by_contra hpb
        simp only [Bool.not_eq_false] at hpb
        simp [hpb] at hr
      · exact hall b hb2
    · intro hall
      refine ⟨fun b hb => hall b (List.mem_cons_of_mem r hb), ?_⟩
      simp [hall r (List.mem_cons_self r rs)]

lemma lastWith_eq_some_of_filter {p : Row → Bool} {l : List Row} {r : Row}
    (h : l.filter p = [r]) : lastWith p l = some r := by
  induction l with
  | nil => simp at h
  | cons a l ih =>
    by_cases hp : p a = true
    · rw [List.filter_cons_of_pos hp] at h
      have ha : a = r := by
        have := congrArg List.head? h; simpa using this
      have hnil : l.filter p = [] := by
        have := congrArg List.tail h; simpa using this
      subst ha
      have hnone : lastWith p l = none :=
        lastWith_eq_none.mpr fun b hb => by
          by_contra hpb
          simp only [Bool.not_eq_false] at hpb
          have hmem : b ∈ l.filter p := List.mem_filter.mpr ⟨hb, hpb⟩
          rw [hnil] at hmem; exact absurd hmem (List.not_mem_nil b)
      simp [lastWith, hnone, hp]
    · rw [List.filter_cons_of_neg hp] at h
      simp only [Bool.not_eq_true] at hp
      simp [lastWith, ih h]

lemma lastWith_append {p : Row → Bool} {l1 l2 : List Row} :
    lastWith p (l1 ++ l2) = (lastWith p l2).or (lastWith p l1) := by
  induction l1 with
  | nil => simp [lastWith]
  | cons a l ih => simp [lastWith, ih, Option.or_assoc]

lemma keepLast_filter_key (t f : String) (l : List Row) :
    (keepLast l).filter (pKey t f) = (lastWith (pKey t f) l).toList := by
  induction l with
  | nil => simp [keepLast, lastWith]
  | cons r rs ih =>
    by_cases h : rs.any (keyEq r) = true
    · simp only [keepLast, if_pos h, ih, lastWith]
      cases hl : lastWith (pKey t f) rs with
      | some x => simp
      | none =>
        by_cases hp : pKey t f r = true
        · exfalso
          obtain ⟨b, hb, hkb⟩ := List.any_eq_true.mp h
          have hpb : pKey t f b = true := by
            obtain ⟨h1, h2⟩ := pKey_iff.mp hp
            obtain ⟨h3, h4⟩ := keyEq_iff.mp hkb
            exact pKey_iff.mpr ⟨h3 ▸ h1, h4 ▸ h2⟩
          have := lastWith_eq_none.mp hl b hb
          rw [hpb] at this; exact absurd this (by simp)
        · simp only [Bool.not_eq_true] at hp
          simp [hp]
    · simp only [keepLast, if_neg h, lastWith]
      by_cases hp : pKey t f r = true
      · have hnone : lastWith (pKey t f) rs = none := by
          refine lastWith_eq_none.mpr fun b hb => ?_
          by_contra hpb
          simp only [Bool.not_eq_false] at hpb
          have hkb : keyEq r b = true := by
            obtain ⟨h1, h2⟩ := pKey_iff.mp hp
            obtain ⟨h3, h4⟩ := pKey_iff.mp hpb
            exact keyEq_iff.mpr ⟨by rw [h1, h3], by rw [h2, h4]⟩
          exact h (List.any_eq_true.mpr ⟨b, hb, hkb⟩)
        rw [List.filter_cons_of_pos hp, ih, hnone]
        simp [hp]
      · rw [List.filter_cons_of_neg hp, ih]
        simp only [Bool.not_eq_true] at hp
        cases lastWith (pKey t f) rs <;> simp [hp]

/-
C1.  The claim says the cells covered by the terminal fetch are exactly the
outstanding cells.  In the code the fetch covers the full Cartesian product
`ref_tcks × ref_flds`, so a cached cell whose row and column both still
have some other outstanding cell is fetched again: the claim fails.
-/

/-- Outstanding predicate of the C1 counterexample: cells
(AAA, Volume) and (BBB, Crncy) are outstanding, while (AAA, Crncy) and
(BBB, Volume) are cached (LoadedMatrix value 1). -/
def outstC1 : String → String → Bool := fun t f =>
  (t == "AAA US Equity" && f == "Volume") || (t == "BBB US Equity" && f == "Crncy")

/-- Claim C1 is false on the code: with tickers AAA, BBB and fields Crncy,
Volume where exactly the diagonal cells are cached, the cell (AAA, Crncy)
is marked cached (not outstanding) yet is covered by the terminal fetch
request, so the fetched cell set is not the outstanding cell set. -/
theorem c1_cached_cell_fetched :
    outstC1 "AAA US Equity" "Crncy" = false ∧
    ("AAA US Equity", "Crncy") ∈
      fetchCells outstC1 ["AAA US Equity", "BBB US Equity"] ["Crncy", "Volume"] := by
  decide

/-- Amended C1: the fetch request covers the minimal rectangle
`ref_tcks × ref_flds`.  Every outstanding cell is covered; every covered
cell lies on a requested ticker and field each of which has at least one
outstanding cell; and when no cell is outstanding no fetch is issued at
all.  Cached cells inside the rectangle are re-fetched (their fresh rows
are then preferred by the keep-last merge in `bdp`, and skipped by the
buffer guard in `bds`). -/
theorem c1_fetch_minimal_rectangle (outst : String → String → Bool)
    (tickers flds : List String) :
    (∀ t ∈ tickers, ∀ f ∈ flds, outst t f = true →
      (t, f) ∈ fetchCells outst tickers flds) ∧
    (∀ p ∈ fetchCells outst tickers flds,
      p.1 ∈ tickers ∧ p.2 ∈ flds ∧
      (∃ f ∈ flds, outst p.1 f = true) ∧ (∃ t ∈ tickers, outst t p.2 = true)) ∧
    ((∀ t ∈ tickers, ∀ f ∈ flds, outst t f = false) →
      fetchCells outst tickers flds = []) := by
  refine ⟨?_, ?_, ?_⟩
  · intro t ht f hf hout
    simp only [fetchCells, List.mem_flatMap, List.mem_map]
    exact ⟨t, List.mem_filter.mpr ⟨ht, List.any_eq_true.mpr ⟨f, hf, hout⟩⟩,
      f, List.mem_filter.mpr ⟨hf, List.any_eq_true.mpr ⟨t, ht, hout⟩⟩, rfl⟩
  · intro p hp
    simp only [fetchCells, List.mem_flatMap, List.mem_map] at hp
    obtain ⟨t, hto, f, hfo, hpe⟩ := hp
    obtain ⟨ht, hta⟩ := List.mem_filter.mp hto
    obtain ⟨hf, hfa⟩ := List.mem_filter.mp hfo
    obtain ⟨f2, hf2, hout2⟩ := List.any_eq_true.mp hta
    obtain ⟨t2, ht2, hout3⟩ := List.any_eq_true.mp hfa
    cases hpe
    exact ⟨ht, hf, ⟨f2, hf2, hout2⟩, ⟨t2, ht2, hout3⟩⟩
  · intro hall
    have : outTicks outst tickers flds = [] := by
      refine List.filter_eq_nil_iff.mpr fun t ht => ?_
      simp only [Bool.not_eq_true, List.any_eq_false]
      intro f hf
      exact hall t ht f hf
    simp [fetchCells, this]

/-- Witness for the amended C1 at a concrete input: with a single fully
outstanding cell, that cell is in the fetch set. -/
theorem c1_fetch_minimal_rectangle_witness :
    ("AAA US Equity", "Crncy") ∈
      fetchCells (fun _ _ => true) ["AAA US Equity"] ["Crncy"] :=
  (c1_fetch_minimal_rectangle (fun _ _ => true) ["AAA US Equity"] ["Crncy"]).1
    "AAA US Equity" (by simp) "Crncy" (by simp) rfl

/-
C5.  Dedup-keep-last in `bdp(cache=True)`: for a cell with both a cached
fragment and a freshly fetched row, the merged result holds exactly the
fresh row.
-/

/-- Confirmed C5: if the fresh fetch of `bdp(cache=True)` returns exactly
one row `r` for the cell (t, f), and the cell also contributed a cached
fragment, then the merged result (cached fragments, then fresh rows,
deduplicated by (ticker, field) keeping the last occurrence) contains
exactly the row `r` for that cell. -/
theorem bdp_dedup_keep_last (ex : String → String → Option Row)
    (refo : List String → List String → List Row) (tickers flds : List String)
    (t f : String) (r : Row)
    (hfresh : (refo (outTicks (bdpOut ex) tickers flds)
      (outFlds (bdpOut ex) tickers flds)).filter (pKey t f) = [r])
    (_hcached : ∃ c ∈ cachedOf ex tickers flds, pKey t f c = true)
    (hne : (outTicks (bdpOut ex) tickers flds).isEmpty = false) :
    (bdpCachedRows ex refo tickers flds).filter (pKey t f) = [r] := by
  unfold bdpCachedRows
  rw [hne]
  simp only [Bool.false_eq_true, if_false]
  rw [keepLast_filter_key, lastWith_append, lastWith_eq_some_of_filter hfresh]
  simp

/-- Witness for C5: ticker AAA with fields PX (cached, stale value 1) and QY
(outstanding); the over-fetched batch returns fresh rows for both; the
merged result holds exactly the fresh PX row. -/
theorem bdp_dedup_keep_last_witness :
    (bdpCachedRows
      (fun t f => if t == "AAA" && f == "PX" then some ⟨"AAA", "PX", 1⟩ else none)
      (fun _ _ => [⟨"AAA", "PX", 2⟩, ⟨"AAA", "QY", 3⟩])
      ["AAA"] ["PX", "QY"]).filter (pKey "AAA" "PX") = [⟨"AAA", "PX", 2⟩] :=
  bdp_dedup_keep_last
    (fun t f => if t == "AAA" && f == "PX" then some ⟨"AAA", "PX", 1⟩ else none)
    (fun _ _ => [⟨"AAA", "PX", 2⟩, ⟨"AAA", "QY", 3⟩])
    ["AAA"] ["PX", "QY"] "AAA" "PX" ⟨"AAA", "PX", 2⟩
    (by decide) (by decide) (by decide)

/-
C2.  Roll Resolver step 6: the claim says the selection happens on the
filtered candidate list taken in chronological maturity order.  The code
indexes `sub_fut` in the row order produced by `bdp(cache=True)`, which
puts cached fragments (in candidate-product order) before freshly fetched
rows — so a stale partial cache reorders the chain and the wrong contract
is selected.  The cell and maturity data below realise that state.
-/

/-- Cache state of the C2 failing input: only the third candidate's
maturity cell has a cache file (left over from an earlier resolution with a
later as-of date). -/
def exC2 : String → String → Option Row := fun t f =>
  if t == "CLQ4 Comdty" && f == "last_tradeable_dt" then
    some ⟨"CLQ4 Comdty", "last_tradeable_dt", 20240820⟩
  else none

/-- Terminal maturity data of the C2 failing input, returned in request
order: CLM4 matures 2024-06-20, CLN4 2024-07-20, CLQ4 2024-08-20. -/
def refoC2 (ts : List String) (_ : List String) : List Row :=
  ts.map fun t =>
    ⟨t, "last_tradeable_dt",
      if t == "CLM4 Comdty" then 20240620
      else if t == "CLN4 Comdty" then 20240720
      else 20240820⟩

/-- Claim C2 (code bug): with the chronological candidate chain
CLM4 < CLN4 < CLQ4, as-of date 2024-01-01 (all three contracts still
live) and idx = 0, but with only CLQ4's maturity cached on disk, the code
returns CLQ4 — the cached row is concatenated first by `bdp` — while the
element at position 0 of the filtered list in chronological maturity order
is CLM4.  The selection is therefore not made on the chronologically
ordered chain, contradicting the resolver's evident intent. -/
theorem fut_ticker_chain_order_bug :
    fut_select exC2 refoC2 ["CLM4 Comdty", "CLN4 Comdty", "CLQ4 Comdty"] 20240101 0 =
      FutResult.ok "CLQ4 Comdty" ∧
    chronSelect (bdpCachedRows exC2 refoC2 ["CLM4 Comdty", "CLN4 Comdty", "CLQ4 Comdty"]
      ["last_tradeable_dt"]) 20240101 0 = some "CLM4 Comdty" ∧
    FutResult.ok "CLQ4 Comdty" ≠ FutResult.ok "CLM4 Comdty" := by
  refine ⟨by decide, by decide, by decide⟩

/-
C3.  Retry policy of `fut_ticker`.
-/

/-- Upstream behaviour of the C3 counterexample: the first (two-candidate)
batch fails, the retry on the shortened list succeeds but returns a table
with no row maturing after the as-of date. -/
def qC3 : List String → Option (List Row) := fun l =>
  if l.length == 2 then none else some []

/-- Claim C3 is false as stated: here the first query fails and the retry
(on the candidate list with its last element dropped) succeeds, yet the
function does not return a non-empty resolved symbol — the selection on the
empty filtered chain raises an uncaught `IndexError` (`FutResult.exn`)
instead of returning any symbol. -/
theorem fut_ticker_retry_success_no_symbol :
    qC3 ["CLZ3 Comdty", "CLF4 Comdty"] = none ∧
    qC3 (["CLZ3 Comdty", "CLF4 Comdty"].dropLast) = some [] ∧
    fut_ticker_core qC3 ["CLZ3 Comdty", "CLF4 Comdty"] 20231201 0 = (FutResult.exn, 2) ∧
    FutResult.exn ≠ FutResult.ok "CLZ3 Comdty" := by
  refine ⟨by decide, by decide, by decide, by decide⟩

/-- Amended C3: at most 2 upstream maturity-query calls are ever made; if
the first query fails, exactly one retry is made on the candidate list
shortened by dropping its last element; if that retry also fails the
function returns the empty string; and if the retry succeeds *and* the
filtered chain has more than `idx` elements (with non-empty candidate
symbols), a non-empty resolved symbol is returned. -/
theorem fut_ticker_retry_bound (q : List String → Option (List Row))
    (fut : List String) (dtv idx : Nat) :
    (fut_ticker_core q fut dtv idx).2 ≤ 2 ∧
    (q fut = none → q fut.dropLast = none →
      fut_ticker_core q fut dtv idx = (FutResult.ok "", 2)) ∧
    (∀ m, q fut = none → q fut.dropLast = some m →
      (fut_ticker_core q fut dtv idx).2 = 2 ∧
      (fut_ticker_core q fut dtv idx).1 = selectFut m dtv idx ∧
      ((∀ r ∈ m, r.ticker ≠ "") → idx < (subFut m dtv).length →
        ∃ s, (fut_ticker_core q fut dtv idx).1 = FutResult.ok s ∧ s ≠ "")) := by
  refine ⟨?_, ?_, ?_⟩
  · unfold fut_ticker_core
    cases q fut with
    | some m => simp
    | none => cases q fut.dropLast <;> simp
  · intro h1 h2
    unfold fut_ticker_core
    rw [h1, h2]
  · intro m h1 h2
    unfold fut_ticker_core
    rw [h1, h2]
    refine ⟨rfl, rfl, fun hne hlt => ?_⟩
    have hsome : (subFut m dtv)[idx]? = some (subFut m dtv)[idx] :=
      List.getElem?_eq_getElem hlt
    have hmem : (subFut m dtv)[idx] ∈ m :=
      List.mem_of_mem_filter (List.getElem_mem hlt)
    refine ⟨(subFut m dtv)[idx].ticker, ?_, hne _ hmem⟩
    simp [selectFut, hsome]

/-- Upstream behaviour of the C3/C4 witness: the first batch fails, the
shortened retry succeeds with one live contract. -/
def qW3 : List String → Option (List Row) := fun l =>
  if l.length == 2 then none else some [⟨"CLH4 Comdty", "last_tradeable_dt", 20240315⟩]

/-- Witness for the amended C3 at a concrete input: the retry succeeds and a
non-empty symbol comes back. -/
theorem fut_ticker_retry_bound_witness :
    ∃ s, (fut_ticker_core qW3 ["CLZ3 Comdty", "CLF4 Comdty"] 20240101 0).1 =
      FutResult.ok s ∧ s ≠ "" :=
  ((fut_ticker_retry_bound qW3 ["CLZ3 Comdty", "CLF4 Comdty"] 20240101 0).2.2
    [⟨"CLH4 Comdty", "last_tradeable_dt", 20240315⟩] (by decide) (by decide)).2.2
    (by decide) (by decide)

/-
C4.  Failure paths degrade to empty results.
-/

/-- Upstream behaviour of the C4 counterexample: the first batch query
"succeeds" but no candidate matures after the as-of date. -/
def qC4 : List String → Option (List Row) := fun _ => some []

/-- Claim C4 is false as stated: when the filtered futures chain is shorter
than `idx + 1` (here: empty), `fut_ticker` does not degrade to an empty
result — the selection raises an uncaught `IndexError` (`FutResult.exn`),
which propagates to the caller. -/
theorem fut_ticker_failure_path_raises :
    fut_ticker_core qC4 ["CLZ3 Comdty"] 20240101 0 = (FutResult.exn, 1) ∧
    FutResult.exn ≠ FutResult.ok "" := by
  refine ⟨by decide, by decide⟩

/-- Amended C4: every modeled failure path degrades to an empty result —
a doubly failed maturity query returns the empty string, and `bdib`
returns an empty frame on an unknown asset class, missing exchange
metadata, or a failed futures resolution — except the out-of-range chain
selection in `fut_ticker`, which raises; when the selection index is within
the filtered chain no exception occurs. -/
theorem failure_paths_degrade (q : List String → Option (List Row))
    (fut : List String) (dtv idx : Nat) (batch : Bool) (cacheRows : List Nat)
    (miss : String → Nat) (key : String) (fetch : List Nat) :
    (q fut = none → q fut.dropLast = none →
      fut_ticker_core q fut dtv idx = (FutResult.ok "", 2)) ∧
    (∀ m, q fut = some m → idx < (subFut m dtv).length →
      (fut_ticker_core q fut dtv idx).1 ≠ FutResult.exn) ∧
    (bdib_rest batch false cacheRows false true true miss key fetch).result = some [] ∧
    (bdib_rest batch false cacheRows true false true miss key fetch).result = some [] ∧
    (bdib_rest batch false cacheRows true true false miss key fetch).result = some [] := by
  refine ⟨?_, ?_, rfl, rfl, rfl⟩
  · intro h1 h2
    unfold fut_ticker_core
    rw [h1, h2]
  · intro m h1 hlt
    unfold fut_ticker_core
    rw [h1]
    simp [selectFut, List.getElem?_eq_getElem hlt]

/-- Witness for the amended C4: a doubly failed maturity query yields the
empty string with two calls. -/
theorem failure_paths_degrade_witness :
    fut_ticker_core (fun _ => none) ["CLZ3 Comdty"] 20240101 0 = (FutResult.ok "", 2) :=
  (failure_paths_degrade (fun _ => none) ["CLZ3 Comdty"] 20240101 0 false []
    (fun _ => 0) "k" []).1 rfl rfl

/-
C7.  Miss-counter suppression in `bdib` (lines 279-283 and 294-297).
-/

/-- Confirmed C7: in the body of `bdib` (cache miss, known asset, exchange
metadata and futures resolution fine), once the consecutive-empty counter
of the call's (ticker, date, type) key has reached 2, the terminal is not
invoked and an empty result comes back (an empty frame when not in batch
mode); below 2 the terminal fetch is issued; an empty fetch increments
exactly this key's counter and a non-empty fetch leaves it unchanged; and
after two consecutive empty fetches starting from a zero counter, a third
call for the same key no longer invokes the terminal. -/
theorem bdib_miss_counter (batch : Bool) (cacheRows : List Nat) (miss : String → Nat)
    (key : String) (fetch : List Nat) :
    (2 ≤ miss key →
      (bdib_rest batch false cacheRows true true true miss key fetch).termCalled = false ∧
      ((bdib_rest batch false cacheRows true true true miss key fetch).result = none ∨
       (bdib_rest batch false cacheRows true true true miss key fetch).result = some []) ∧
      (batch = false →
        (bdib_rest batch false cacheRows true true true miss key fetch).result = some [])) ∧
    (miss key < 2 →
      (bdib_rest batch false cacheRows true true true miss key fetch).termCalled = true) ∧
    (miss key < 2 → fetch = [] →
      (bdib_rest batch false cacheRows true true true miss key fetch).missAfter key =
        miss key + 1 ∧
      (∀ k2, k2 ≠ key →
        (bdib_rest batch false cacheRows true true true miss key fetch).missAfter k2 =
          miss k2)) ∧
    (miss key < 2 → fetch ≠ [] → ∀ k2,
      (bdib_rest batch false cacheRows true true true miss key fetch).missAfter k2 =
        miss k2) ∧
    (miss key = 0 →
      (bdib_rest batch false cacheRows true true true
        ((bdib_rest batch false cacheRows true true true
          ((bdib_rest batch false cacheRows true true true miss key []).missAfter)
          key []).missAfter) key fetch).termCalled = false) := by
  refine ⟨?_, ?_, ?_, ?_, ?_⟩
  · intro h
    cases batch <;> simp [bdib_rest, h]
  · intro h
    have h2 : ¬ 2 ≤ miss key := by omega
    cases fetch <;> cases batch <;> simp [bdib_rest, h2]
  · intro h hf
    subst hf
    have h2 : ¬ 2 ≤ miss key := by omega
    refine ⟨?_, fun k2 hk2 => ?_⟩
    · simp [bdib_rest, h2, update_missing]
    · simp [bdib_rest, h2, update_missing, hk2]
  · intro h hf k2
    have h2 : ¬ 2 ≤ miss key := by omega
    have hfe : fetch.isEmpty = false := by
      cases fetch with
      | nil => exact absurd rfl hf
      | cons a l => rfl
    cases batch <;> simp [bdib_rest, h2, hfe]
  · intro h0
    have h1 : ¬ 2 ≤ miss key := by omega
    have e1 : (bdib_rest batch false cacheRows true true true miss key []).missAfter =
        update_missing miss key := by
      cases batch <;> simp [bdib_rest, h1]
    rw [e1]
    have hu1 : update_missing miss key key = 1 := by simp [update_missing, h0]
    have h2 : ¬ 2 ≤ update_missing miss key key := by rw [hu1]; omega
    have e2 : (bdib_rest batch false cacheRows true true true
        (update_missing miss key) key []).missAfter =
        update_missing (update_missing miss key) key := by
      cases batch <;> simp [bdib_rest, h2]
    rw [e2]
    have hu2 : update_missing (update_missing miss key) key key = 2 := by
      simp [update_missing, h0]
    have h3 : 2 ≤ update_missing (update_missing miss key) key key := by rw [hu2]
    cases batch <;> simp [bdib_rest, h3]

/-- Witness for C7: with the counter already at 2 and a non-batch call, an
empty frame is returned. -/
theorem bdib_miss_counter_witness :
    (bdib_rest false false [] true true true (fun _ => 2) "k" [7]).result = some [] :=
  ((bdib_miss_counter false [] (fun _ => 2) "k" [7]).1 (by decide)).2.2 rfl

/-
C8.  The batch-freshness guard of `bdib` (lines 230-234).
-/

/-- Claim C8 is false as stated: with today = day 100 and the requested
date = day 99 — i.e. exactly yesterday, hence *not* newer than yesterday —
a batch call still skips the fetch and returns nothing, because the code's
condition is `not (date < today - 1)`, which also fires on yesterday
itself. -/
theorem bdib_guard_fires_on_yesterday :
    (bdib_core 100 99 true false [] true true true (fun _ => 0) "k" [5]).result = none ∧
    (bdib_core 100 99 true false [] true true true (fun _ => 0) "k" [5]).termCalled = false ∧
    ¬ (100 - 1 < 99) := by
  refine ⟨rfl, rfl, by decide⟩

/-- Amended C8: in batch mode the fetch is skipped (returning `None` and
never touching the terminal) exactly when the requested date is yesterday
or newer; for dates strictly older than yesterday, or whenever
batch=False, the guard does not trigger and the call proceeds to the
normal body. -/
theorem bdib_freshness_guard (today dtv : Nat) (batch cacheHit : Bool)
    (cacheRows : List Nat) (assetKnown exchOk futOk : Bool) (miss : String → Nat)
    (key : String) (fetch : List Nat) :
    (batch = true → today - 1 ≤ dtv →
      (bdib_core today dtv batch cacheHit cacheRows assetKnown exchOk futOk miss key
        fetch).result = none ∧
      (bdib_core today dtv batch cacheHit cacheRows assetKnown exchOk futOk miss key
        fetch).termCalled = false) ∧
    (batch = false ∨ dtv < today - 1 →
      bdib_core today dtv batch cacheHit cacheRows assetKnown exchOk futOk miss key fetch =
        bdib_rest batch cacheHit cacheRows assetKnown exchOk futOk miss key fetch) := by
  constructor
  · rintro rfl hle
    have hg : freshGuard today dtv true = true := by
      simp only [freshGuard, Bool.true_and, Bool.not_eq_true']
      simpa [decide_eq_false_iff_not] using Nat.not_lt.mpr hle
    simp [bdib_core, hg]
  · intro h
    have hg : freshGuard today dtv batch = false := by
      rcases h with rfl | hlt
      · rfl
      · simp [freshGuard, hlt]
    simp [bdib_core, hg]

/-- Witness for the amended C8: a batch request for today itself is
skipped. -/
theorem bdib_freshness_guard_witness :
    (bdib_core 100 100 true false [] true true true (fun _ => 0) "k" [5]).result = none :=
  ((bdib_freshness_guard 100 100 true false [] true true true (fun _ => 0) "k" [5]).1
    rfl (by decide)).1

/-
C10.  What `bdib` returns in batch mode.
-/

lemma bdib_rest_batch_no_data (cacheHit : Bool) (cacheRows : List Nat)
    (assetKnown exchOk futOk : Bool) (miss : String → Nat) (key : String)
    (fetch : List Nat) :
    (bdib_rest true cacheHit cacheRows assetKnown exchOk futOk miss key fetch).result =
      none ∨
    (bdib_rest true cacheHit cacheRows assetKnown exchOk futOk miss key fetch).result =
      some [] := by
  unfold bdib_rest
  split_ifs <;> simp_all

/-- Claim C10 is false as stated: a batch call whose terminal fetch comes
back empty returns an empty DataFrame (`some []`), not `None` — line 297
returns `pd.DataFrame()` regardless of `batch`. -/
theorem bdib_batch_empty_fetch_returns_frame :
    (bdib_core 100 50 true false [] true true true (fun _ => 0) "k" []).result = some [] ∧
    (some ([] : List Nat) : Option (List Nat)) ≠ none := by
  refine ⟨rfl, by decide⟩

/-- Amended C10: with batch=True, `bdib` returns `None` on the
freshness-guard skip, the existing-cache-file path, the miss-counter
suppression path and the successful-fetch path (where the data is
persisted but not returned); the error and empty-fetch paths return an
empty frame instead; on every path no intraday row is ever returned, so
non-empty data only reaches the caller when batch=False. -/
theorem bdib_batch_returns_none (today dtv : Nat) (cacheHit : Bool)
    (cacheRows : List Nat) (assetKnown exchOk futOk : Bool) (miss : String → Nat)
    (key : String) (fetch : List Nat) :
    ((bdib_core today dtv true cacheHit cacheRows assetKnown exchOk futOk miss key
        fetch).result = none ∨
     (bdib_core today dtv true cacheHit cacheRows assetKnown exchOk futOk miss key
        fetch).result = some []) ∧
    (today - 1 ≤ dtv →
      (bdib_core today dtv true cacheHit cacheRows assetKnown exchOk futOk miss key
        fetch).result = none) ∧
    (cacheHit = true →
      (bdib_core today dtv true cacheHit cacheRows assetKnown exchOk futOk miss key
        fetch).result = none) ∧
    (2 ≤ miss key → cacheHit = false → assetKnown = true → exchOk = true → futOk = true →
      (bdib_core today dtv true cacheHit cacheRows assetKnown exchOk futOk miss key
        fetch).result = none) ∧
    (dtv < today - 1 → cacheHit = false → assetKnown = true → exchOk = true →
      futOk = true → miss key < 2 → fetch ≠ [] →
      (bdib_core today dtv true cacheHit cacheRows assetKnown exchOk futOk miss key
        fetch).result = none ∧
      (bdib_core today dtv true cacheHit cacheRows assetKnown exchOk futOk miss key
        fetch).saved = true) := by
  refine ⟨?_, ?_, ?_, ?_, ?_⟩
  · unfold bdib_core
    split_ifs
    · exact Or.inl rfl
    · exact bdib_rest_batch_no_data cacheHit cacheRows assetKnown exchOk futOk miss key
        fetch
  · intro hle
    have hg : freshGuard today dtv true = true := by
      simp only [freshGuard, Bool.true_and, Bool.not_eq_true']
      simpa [decide_eq_false_iff_not] using Nat.not_lt.mpr hle
    simp [bdib_core, hg]
  · rintro rfl
    unfold bdib_core
    split_ifs
    · rfl
    · simp [bdib_rest]
  · rintro hm rfl rfl rfl rfl
    unfold bdib_core
    split_ifs
    · rfl
    · simp [bdib_rest, hm]
  · intro hlt hch hak heo hfo hm hf
    subst hch; subst hak; subst heo; subst hfo
    have hg : freshGuard today dtv true = false := by simp [freshGuard, hlt]
    have h2 : ¬ 2 ≤ miss key := by omega
    have hfe : fetch.isEmpty = false := by
      cases fetch with
      | nil => exact absurd rfl hf
      | cons a l => rfl
    constructor <;> simp [bdib_core, hg, bdib_rest, h2, hfe]

/-- Witness for the amended C10: a successful batch fetch is persisted but
returns `None`. -/
theorem bdib_batch_returns_none_witness :
    (bdib_core 100 50 true false [] true true true (fun _ => 0) "k" [7]).result = none ∧
    (bdib_core 100 50 true false [] true true true (fun _ => 0) "k" [7]).saved = true :=
  (bdib_batch_returns_none 100 50 false [] true true true (fun _ => 0) "k" [7]).2.2.2.2
    (by decide) rfl rfl rfl rfl (by decide) (by decide)

/-
C6.  The `bds` fresh-group loop: append-iff-outstanding, persist-always.
-/

lemma keysOf_nodup (l : List Row) : (keysOf l).Nodup := by
  induction l with
  | nil => exact List.nodup_nil
  | cons r rs ih =>
    simp only [keysOf]
    refine List.nodup_cons.mpr ⟨?_, ih.filter _⟩
    intro hmem
    have := (List.mem_filter.mp hmem).2
    simp at this

lemma mem_keysOf {l : List Row} {k : String × String} :
    k ∈ keysOf l ↔ ∃ r ∈ l, (r.ticker, r.field) = k := by
  induction l with
  | nil => simp [keysOf]
  | cons r rs ih =>
    simp only [keysOf, List.mem_cons]
    constructor
    · rintro (rfl | hmem)
      · exact ⟨r, Or.inl rfl, rfl⟩
      · obtain ⟨r2, hr2, he⟩ := ih.mp (List.mem_filter.mp hmem).1
        exact ⟨r2, Or.inr hr2, he⟩
    · rintro ⟨r2, hr2, he⟩
      rcases hr2 with rfl | hr22
      · exact Or.inl he.symm
      · by_cases hek : k = (r.ticker, r.field)
        · exact Or.inl hek
        · refine Or.inr (List.mem_filter.mpr ⟨ih.mpr ⟨_, hr22, he⟩, ?_⟩)
          simp [hek]

lemma groupOf_key {l : List Row} {k : String × String} {r : Row}
    (h : r ∈ groupOf l k) : (r.ticker, r.field) = k := by
  have := (List.mem_filter.mp h).2
  simpa using this

lemma groupOf_filter_self (l : List Row) (k : String × String) :
    (groupOf l k).filter (fun r => (r.ticker, r.field) == k) = groupOf l k :=
  List.filter_eq_self.mpr fun _r hr => (List.mem_filter.mp hr).2

lemma groupOf_filter_ne (l : List Row) {k k2 : String × String} (h : k ≠ k2) :
    (groupOf l k2).filter (fun r => (r.ticker, r.field) == k) = [] := by
  refine List.filter_eq_nil_iff.mpr fun r hr => ?_
  rw [groupOf_key hr]
  simp only [beq_iff_eq]
  exact fun hh => h hh.symm

lemma bdsFreshLoop_keys (exB hasPath : String → String → Bool)
    (tickers flds : List String) (data : List Row) (ks : List (String × String))
    (hcov : ∀ k ∈ ks, k.1 ∈ outTicks (fun t f => !exB t f) tickers flds ∧
      k.2 ∈ outFlds (fun t f => !exB t f) tickers flds)
    (hnd : ks.Nodup) :
    ∃ buf wr,
      bdsFreshLoop exB hasPath tickers flds (ks.map fun k => (k, groupOf data k)) =
        some (buf, wr) ∧
      (∀ k, k ∉ ks → buf.filter (fun r => (r.ticker, r.field) == k) = []) ∧
      (∀ k ∈ ks, buf.filter (fun r => (r.ticker, r.field) == k) =
        if exB k.1 k.2 then [] else groupOf data k) ∧
      (∀ k, (k, groupOf data k) ∈ wr → k ∈ ks ∧ hasPath k.1 k.2 = true) ∧
      (∀ k ∈ ks, hasPath k.1 k.2 = true → (k, groupOf data k) ∈ wr) ∧
      ((∀ k ∈ ks, hasPath k.1 k.2 = true) →
        wr = ks.map fun k => (k, groupOf data k)) := by
  induction ks with
  | nil =>
    refine ⟨[], [], rfl, fun k _ => rfl, by simp, by simp, by simp, fun _ => rfl⟩
  | cons a ks ih =>
    obtain ⟨hna, hnd2⟩ := List.nodup_cons.mp hnd
    obtain ⟨buf, wr, heq, hout, hin, hwmem, hwmem2, hwall⟩ :=
      ih (fun k hk => hcov k (List.mem_cons_of_mem a hk)) hnd2
    have hca := hcov a (List.mem_cons_self a ks)
    refine ⟨(if exB a.1 a.2 then buf else groupOf data a ++ buf),
      (if hasPath a.1 a.2 then (a, groupOf data a) :: wr else wr),
      ?_, ?_, ?_, ?_, ?_, ?_⟩
    · simp only [List.map_cons, bdsFreshLoop, if_pos hca, heq]
    · intro k hk
      have hka : k ≠ a := fun h => hk (h ▸ List.mem_cons_self a ks)
      have hkks : k ∉ ks := fun h => hk (List.mem_cons_of_mem a h)
      by_cases he : exB a.1 a.2
      · simp only [if_pos he]
        exact hout k hkks
      · simp only [if_neg he, List.filter_append, hout k hkks,
          groupOf_filter_ne data hka, List.nil_append]
    · intro k hk
      rcases List.mem_cons.mp hk with rfl | hk2
      · by_cases he : exB k.1 k.2
        · simp only [if_pos he]
          rw [hout k hna]
        · simp only [if_neg he, List.filter_append, groupOf_filter_self,
            hout k hna, List.append_nil]
      · have hka : k ≠ a := fun h => hna (h ▸ hk2)
        by_cases he : exB a.1 a.2
        · simp only [if_pos he]
          exact hin k hk2
        · simp only [if_neg he, List.filter_append, groupOf_filter_ne data hka,
            hin k hk2, List.nil_append]
    · intro k hkw
      by_cases hp : hasPath a.1 a.2
      · rw [if_pos hp] at hkw
        rcases List.mem_cons.mp hkw with heq2 | hkw2
        · have hka : k = a := congrArg Prod.fst heq2
          subst hka
          exact ⟨List.mem_cons_self k ks, hp⟩
        · obtain ⟨h1, h2⟩ := hwmem k hkw2
          exact ⟨List.mem_cons_of_mem a h1, h2⟩
      · rw [if_neg hp] at hkw
        obtain ⟨h1, h2⟩ := hwmem k hkw
        exact ⟨List.mem_cons_of_mem a h1, h2⟩
    · intro k hk hp
      rcases List.mem_cons.mp hk with rfl | hk2
      · rw [if_pos hp]
        exact List.mem_cons_self _ wr
      · have hmem := hwmem2 k hk2 hp
        by_cases hpa : hasPath a.1 a.2
        · rw [if_pos hpa]
          exact List.mem_cons_of_mem _ hmem
        · rw [if_neg hpa]
          exact hmem
    · intro hall
      rw [if_pos (hall a (List.mem_cons_self a ks)),
        hwall (fun k hk => hall k (List.mem_cons_of_mem a hk)), List.map_cons]

/-- Confirmed C6: when the fetched block rows all lie inside the `to_qry`
rectangle, the loop of `bds` succeeds and, for every fetched (ticker,
field) group: the group's rows land in the result buffer exactly when the
cell's cache file was absent (LoadedMatrix outstanding, `to_qry` value 0) —
once, without duplication — and they are excluded when the cell was cached
(so an over-fetched cached cell does not make its rows appear twice); a
group is persisted exactly when its cache path resolves, and when every
path resolves all fetched groups are persisted. -/
theorem bds_append_iff_outstanding (exB hasPath : String → String → Bool)
    (tickers flds : List String) (data : List Row)
    (hcov : ∀ k ∈ keysOf data,
      k.1 ∈ outTicks (fun t f => !exB t f) tickers flds ∧
      k.2 ∈ outFlds (fun t f => !exB t f) tickers flds) :
    ∃ buf wr, bdsFresh exB hasPath tickers flds data = some (buf, wr) ∧
      (∀ k ∈ keysOf data,
        buf.filter (fun r => (r.ticker, r.field) == k) =
          if exB k.1 k.2 then [] else groupOf data k) ∧
      (∀ k ∈ keysOf data, ((k, groupOf data k) ∈ wr ↔ hasPath k.1 k.2 = true)) ∧
      ((∀ k ∈ keysOf data, hasPath k.1 k.2 = true) → wr = groupsOf data) := by
  obtain ⟨buf, wr, heq, hout, hin, hwmem, hwmem2, hwall⟩ :=
    bdsFreshLoop_keys exB hasPath tickers flds data (keysOf data) hcov
      (keysOf_nodup data)
  exact ⟨buf, wr, heq, hin, fun k hk => ⟨fun h => (hwmem k h).2, hwmem2 k hk⟩, hwall⟩

/-- Cache state of the C6 witness: the diagonal cells (T1, F1) and (T2, F2)
are cached, the off-diagonal cells are outstanding, so the fetched
rectangle is the full product and the two cached cells are over-fetched. -/
def exW6 : String → String → Bool := fun t f =>
  (t == "T1" && f == "F1") || (t == "T2" && f == "F2")

/-- Fetched block rows of the C6 witness: one row per cell of the
rectangle. -/
def dataW6 : List Row :=
  [⟨"T1", "F1", 11⟩, ⟨"T1", "F2", 12⟩, ⟨"T2", "F1", 21⟩, ⟨"T2", "F2", 22⟩]

/-- Witness for C6 at a concrete over-fetched input. -/
theorem bds_append_iff_outstanding_witness :
    ∃ buf wr, bdsFresh exW6 (fun _ _ => true) ["T1", "T2"] ["F1", "F2"] dataW6 =
        some (buf, wr) ∧
      (∀ k ∈ keysOf dataW6,
        buf.filter (fun r => (r.ticker, r.field) == k) =
          if exW6 k.1 k.2 then [] else groupOf dataW6 k) ∧
      (∀ k ∈ keysOf dataW6,
        ((k, groupOf dataW6 k) ∈ wr ↔ (fun (_ : String) (_ : String) => true) k.1 k.2 = true)) ∧
      ((∀ k ∈ keysOf dataW6, (fun (_ : String) (_ : String) => true) k.1 k.2 = true) →
        wr = groupsOf dataW6) :=
  bds_append_iff_outstanding exW6 (fun _ _ => true) ["T1", "T2"] ["F1", "F2"] dataW6
    (by decide)

/-
C9.  Active-contract short-circuit of `active_futures`.
-/

/-- Cache state of the C9 failing input: only the *second* contract's
maturity cell (CLF4, January 2024) has a cache file. -/
def exC9 : String → String → Option Row := fun t f =>
  if t == "CLF4 Comdty" && f == "Last_Tradeable_Dt" then
    some ⟨"CLF4 Comdty", "Last_Tradeable_Dt", 20240119⟩
  else none

/-- Terminal maturity data of the C9 failing input: the front contract CLZ3
matures 2023-12-15, CLF4 matures 2024-01-19. -/
def refoC9 (ts : List String) (_ : List String) : List Row :=
  ts.map fun t =>
    ⟨t, "Last_Tradeable_Dt", if t == "CLZ3 Comdty" then 20231215 else 20240119⟩

/-- Claim C9 (code bug): as-of date 2023-11-10 has calendar month 11,
strictly less than the front contract's maturity month 12 (CLZ3 matures
2023-12-15), so per the claim the front contract must be returned with no
intraday volume query.  But `active_futures` compares against
`fut_tk.value[0]`, the *first returned row* of the cached maturity lookup —
here the cached CLF4 row (month 1), because `bdp` concatenates cached
fragments first — so the short-circuit misfires: the volume query is
issued and (volumes tying at 0) the second contract is returned. -/
theorem active_futures_front_month_bug :
    monthOf 20231110 < monthOf 20231215 ∧
    active_futures_core exC9 refoC9 "CLZ3 Comdty" "CLF4 Comdty" 20231110 0 0 =
      some ("CLF4 Comdty", true) ∧
    some (("CLF4 Comdty" : String), true) ≠ some (("CLZ3 Comdty" : String), false) := by
  refine ⟨by decide, by decide, by decide⟩
